import Mathlib

/-!
# Verification of the duplicate-contact scanner core (`src/main.rs`)

Shallow embedding of the scoring core:

* A text value is represented by its grapheme-cluster segmentation, as
  produced by `s.graphemes(true)`: a list of grapheme clusters, each cluster a
  list of Unicode code points (`Char`).  The segmentation itself is performed
  by the external `unicode_segmentation` crate and is taken as given.
* Rust `f64` arithmetic is modelled by exact rational arithmetic (`ℚ`); every
  quantity the program manipulates (`1.0 - d/m`, weighted sums, `* 1000.0 / 11.0`)
  is a rational number, and the final `as i32` cast is truncation toward zero.
* The mutable `Vec<Vec<usize>>` DP matrix of `levenshtein_distance` is
  modelled as a `List (List ℕ)` threaded through folds that mirror the
  initialisation statements and the two nested `for` loops of the source.
-/

/-- A grapheme cluster: the sequence of Unicode code points forming one
user-perceived character.  In every real string segmentation a cluster is
nonempty; this is recorded separately as `UText.WF`. -/
abbrev Grapheme := List Char

/-- A text value, represented by its grapheme-cluster segmentation
(`s.graphemes(true).collect::<Vec<&str>>()` in the source).  Two grapheme
slices of the source compare equal iff their code-point sequences do. -/
abbrev UText := List Grapheme

namespace UText

/-- Number of Unicode code points of the text (`s.chars().count()`). -/
def charCount (s : UText) : ℕ := (s.map List.length).sum

/-- `str::is_empty`: a Rust string is byte-empty iff it has no code points. -/
def isEmpty (s : UText) : Bool := s.charCount == 0

/-- Well-formedness of the representation: every grapheme cluster carries at
least one code point.  This holds for the segmentation of every real string. -/
def WF (s : UText) : Prop := ∀ g ∈ s, g ≠ []

instance (s : UText) : Decidable s.WF := by
  unfold WF; infer_instance

end UText

/-- Segmentation of a pure-ASCII string (no combining sequences, no CR LF):
every code point is its own grapheme cluster. -/
def asciiText (s : String) : UText := s.toList.map fun c => [c]

/-! ## The DP matrix of `levenshtein_distance` -/

/-- Read one cell of the DP matrix (`matrix[i][j]`). -/
def getCell (m : List (List ℕ)) (i j : ℕ) : ℕ := (m.getD i []).getD j 0

/-- Write one cell of the DP matrix (`matrix[i][j] = v`). -/
def setCell (m : List (List ℕ)) (i j v : ℕ) : List (List ℕ) :=
  m.set i ((m.getD i []).set j v)

/-- Body of the inner `for j` loop: compute `cost` from
`s1_chars[i - 1] == s2_chars[j - 1]` and store
`min(min(matrix[i-1][j] + 1, matrix[i][j-1] + 1), matrix[i-1][j-1] + cost)`
into `matrix[i][j]`. -/
def levStep (s1 s2 : UText) (m : List (List ℕ)) (i j : ℕ) : List (List ℕ) :=
  let cost : ℕ := if s1.getD (i - 1) [] = s2.getD (j - 1) [] then 0 else 1
  setCell m i j
    (min (min (getCell m (i - 1) j + 1) (getCell m i (j - 1) + 1))
      (getCell m (i - 1) (j - 1) + cost))

/-- The initial DP matrix of `levenshtein_distance`:
`vec![vec![0; len2 + 1]; len1 + 1]`, then the two iterator statements set the
first cell of each row `i` to `i` and the first row to `0..=len2`. -/
def levInit (len1 len2 : ℕ) : List (List ℕ) :=
  let matrix0 : List (List ℕ) := List.replicate (len1 + 1) (List.replicate (len2 + 1) 0)
  let matrix1 := matrix0.mapIdx fun i row => row.set 0 i
  matrix1.set 0 ((matrix1.getD 0 []).mapIdx fun j _ => j)

/-- The DP matrix built by `levenshtein_distance`: the initialised matrix after
the two nested loops `for i in 1..=len1 { for j in 1..=len2 { ... } }` fill the
interior. -/
def levMatrix (s1 s2 : UText) : List (List ℕ) :=
  (List.range' 1 s1.length).foldl
    (fun m i => (List.range' 1 s2.length).foldl (fun m j => levStep s1 s2 m i j) m)
    (levInit s1.length s2.length)

/-- `levenshtein_distance` from the source: build the DP matrix over the two
grapheme sequences and return `matrix[len1][len2]`. -/
def levenshtein_distance (s1 s2 : UText) : ℕ :=
  getCell (levMatrix s1 s2) s1.length s2.length

/-! ## Reference Levenshtein distance -/

/-- The textbook Levenshtein recurrence over grapheme sequences: the
mathematical edit distance the DP matrix is meant to compute. -/
def lev : UText → UText → ℕ
  | [], ys => ys.length
  | x :: xs, [] => (x :: xs).length
  | x :: xs, y :: ys =>
    min (min (lev xs (y :: ys) + 1) (lev (x :: xs) ys + 1))
      (lev xs ys + if x = y then 0 else 1)
termination_by xs ys => xs.length + ys.length
decreasing_by all_goals simp_arith

/-- `EditSeq a b n`: `n` single-grapheme edit operations (insertion, deletion
or substitution) transform the grapheme sequence `a` into `b`. -/
inductive EditSeq : UText → UText → ℕ → Prop
  | nil : EditSeq [] [] 0
  | keep {xs ys : UText} {n : ℕ} (g : Grapheme) :
      EditSeq xs ys n → EditSeq (g :: xs) (g :: ys) n
  | subst {xs ys : UText} {n : ℕ} {g h : Grapheme} :
      g ≠ h → EditSeq xs ys n → EditSeq (g :: xs) (h :: ys) (n + 1)
  | delete {xs ys : UText} {n : ℕ} (g : Grapheme) :
      EditSeq xs ys n → EditSeq (g :: xs) ys (n + 1)
  | insert {xs ys : UText} {n : ℕ} (h : Grapheme) :
      EditSeq xs ys n → EditSeq xs (h :: ys) (n + 1)

/-! ## Similarity, scoring, pipeline -/

/-- `calculate_similarity` from the source, with `f64` modelled as `ℚ`. -/
def calculate_similarity (s1 s2 : UText) : ℚ :=
  if s1.isEmpty && s2.isEmpty then 1
  else if s1.isEmpty || s2.isEmpty then 0
  else
    let distance := levenshtein_distance s1 s2
    let max_len := max s1.charCount s2.charCount
    1 - ((distance : ℚ) / (max_len : ℚ))

/-- A contact record (`Contact` in the source); `id` is an `i32`. -/
structure Contact where
  id : ℤ
  name : UText
  last_name : UText
  email : UText
  zip_code : UText
  address : UText
deriving DecidableEq, Inhabited

/-- All five text fields of a contact are well-formed segmentations. -/
def Contact.WF (c : Contact) : Prop :=
  c.name.WF ∧ c.last_name.WF ∧ c.email.WF ∧ c.zip_code.WF ∧ c.address.WF

instance (c : Contact) : Decidable c.WF := by
  unfold Contact.WF; infer_instance

/-- Truncation toward zero: the behaviour of Rust's `as i32` cast on a finite
`f64` whose value fits in `i32`. -/
def truncToInt (q : ℚ) : ℤ := if q < 0 then q.ceil else q.floor

/-- `calculate_match_score` from the source: weighted sum of the five field
similarities (weights 2, 2, 3, 2, 2), rescaled by `* 1000.0 / 11.0` and cast
to an integer. -/
def calculate_match_score (contact1 contact2 : Contact) : ℤ :=
  let score : ℚ :=
    calculate_similarity contact1.name contact2.name * 2
      + calculate_similarity contact1.last_name contact2.last_name * 2
      + calculate_similarity contact1.email contact2.email * 3
      + calculate_similarity contact1.zip_code contact2.zip_code * 2
      + calculate_similarity contact1.address contact2.address * 2
  truncToInt (score * 1000 / 11)

/-- A retained match (`SimilarityScore` in the source). -/
structure SimilarityScore where
  contact_id1 : ℤ
  contact_id2 : ℤ
  score : ℤ
deriving DecidableEq

/-- The pair-generation step of `calculate_similarity_scores`:
`contacts.iter().enumerate().flat_map(|(i, c1)| contacts[i + 1..].iter().map(move |c2| (c1, c2)))`. -/
def contactPairs (contacts : List Contact) : List (Contact × Contact) :=
  contacts.enum.flatMap fun p => (contacts.drop (p.1 + 1)).map fun c2 => (p.2, c2)

/-- The closure passed to `filter_map`: score a pair and retain it iff
`score >= threshold`. -/
def scoreFilter (threshold : ℤ) (p : Contact × Contact) : Option SimilarityScore :=
  let score := calculate_match_score p.1 p.2
  if score ≥ threshold then some ⟨p.1.id, p.2.id, score⟩ else none

/-- `calculate_similarity_scores` from the source: enumerate all pairs, score
each, and keep those meeting the threshold.  The rayon `par_iter` pipeline is
order-preserving; its sequential semantics is the list `filterMap`. -/
def calculate_similarity_scores (contacts : List Contact) (threshold : ℤ) :
    List SimilarityScore :=
  (contactPairs contacts).filterMap (scoreFilter threshold)

/-- The index set `{(i, j) | i < j < n}` enumerated in the order of the
source's pair generation. -/
def indexPairs (n : ℕ) : List (ℕ × ℕ) :=
  (List.range n).flatMap fun i => (List.range' (i + 1) (n - (i + 1))).map fun j => (i, j)

/-! ## Equations for `lev` -/

theorem lev_nil (ys : UText) : lev [] ys = ys.length := by
  simp [lev]

theorem lev_cons_nil (x : Grapheme) (xs : UText) : lev (x :: xs) [] = xs.length + 1 := by
  simp [lev]

theorem lev_xs_nil (xs : UText) : lev xs [] = xs.length := by
  cases xs with
  | nil => simp [lev_nil]
  | cons x xs => simp [lev_cons_nil]

theorem lev_cons_cons (x y : Grapheme) (xs ys : UText) :
    lev (x :: xs) (y :: ys) =
      min (min (lev xs (y :: ys) + 1) (lev (x :: xs) ys + 1))
        (lev xs ys + if x = y then 0 else 1) := by
  rw [lev]

/-! ## `lev` is the least edit-sequence length -/

theorem editSeq_nil_left (ys : UText) : EditSeq [] ys ys.length := by
  induction ys with
  | nil => exact .nil
  | cons y ys ih => exact .insert y ih

theorem editSeq_nil_right (xs : UText) : EditSeq xs [] xs.length := by
  induction xs with
  | nil => exact .nil
  | cons x xs ih => exact .delete x ih

theorem editSeq_lev (a b : UText) : EditSeq a b (lev a b) := by
  generalize hN : a.length + b.length = N
  induction N using Nat.strong_induction_on generalizing a b with
  | _ N IH =>
    cases a with
    | nil => rw [lev_nil]; exact editSeq_nil_left b
    | cons x xs =>
      cases b with
      | nil => rw [lev_xs_nil]; exact editSeq_nil_right _
      | cons y ys =>
        subst hN
        rw [lev_cons_cons]
        have IH1 : EditSeq xs (y :: ys) (lev xs (y :: ys)) :=
          IH _ (by simp) xs (y :: ys) rfl
        have IH2 : EditSeq (x :: xs) ys (lev (x :: xs) ys) :=
          IH _ (by simp) (x :: xs) ys rfl
        have IH3 : EditSeq xs ys (lev xs ys) :=
          IH _ (by simp; omega) xs ys rfl
        have h1 : EditSeq (x :: xs) (y :: ys) (lev xs (y :: ys) + 1) := .delete x IH1
        have h2 : EditSeq (x :: xs) (y :: ys) (lev (x :: xs) ys + 1) := .insert y IH2
        have h3 : EditSeq (x :: xs) (y :: ys) (lev xs ys + if x = y then 0 else 1) := by
          by_cases hxy : x = y
          · subst hxy; simpa using EditSeq.keep x IH3
          · simpa [hxy] using EditSeq.subst hxy IH3
        rcases min_choice (min (lev xs (y :: ys) + 1) (lev (x :: xs) ys + 1))
            (lev xs ys + if x = y then 0 else 1) with h | h <;> rw [h]
        · rcases min_choice (lev xs (y :: ys) + 1) (lev (x :: xs) ys + 1) with h' | h' <;>
            rw [h']
          · exact h1
          · exact h2
        · exact h3

theorem lev_le_of_editSeq {a b : UText} {n : ℕ} (h : EditSeq a b n) : lev a b ≤ n := by
  induction h with
  | nil => simp [lev_nil]
  | keep g h ih =>
    rw [lev_cons_cons]
    refine le_trans (min_le_right _ _) ?_
    simpa using ih
  | subst hne h ih =>
    rw [lev_cons_cons]
    refine le_trans (min_le_right _ _) ?_
    simp only [hne, if_false]
    omega
  | delete g h ih =>
    rename_i xs ys n
    cases ys with
    | nil =>
      rw [lev_xs_nil] at ih ⊢
      simpa using Nat.add_le_add_right ih 1
    | cons y ys' =>
      rw [lev_cons_cons]
      calc min _ _ ≤ _ := min_le_left _ _
        _ ≤ lev xs (y :: ys') + 1 := min_le_left _ _
        _ ≤ n + 1 := Nat.add_le_add_right ih 1
  | insert g h ih =>
    rename_i xs ys n
    cases xs with
    | nil =>
      rw [lev_nil] at ih ⊢
      simpa using Nat.add_le_add_right ih 1
    | cons x xs' =>
      rw [lev_cons_cons]
      calc min _ _ ≤ _ := min_le_left _ _
        _ ≤ lev (x :: xs') ys + 1 := min_le_right _ _
        _ ≤ n + 1 := Nat.add_le_add_right ih 1

theorem lev_isLeast (a b : UText) : IsLeast {n | EditSeq a b n} (lev a b) :=
  ⟨editSeq_lev a b, fun _ hn => lev_le_of_editSeq hn⟩

/-! ## Symmetry and reversal of edit sequences -/

theorem editSeq_symm {a b : UText} {n : ℕ} (h : EditSeq a b n) : EditSeq b a n := by
  induction h with
  | nil => exact .nil
  | keep g _ ih => exact .keep g ih
  | subst hne _ ih => exact .subst (Ne.symm hne) ih
  | delete g _ ih => exact .insert g ih
  | insert g _ ih => exact .delete g ih

theorem lev_comm (a b : UText) : lev a b = lev b a :=
  le_antisymm (lev_le_of_editSeq (editSeq_symm (editSeq_lev b a)))
    (lev_le_of_editSeq (editSeq_symm (editSeq_lev a b)))

theorem editSeq_keep_end {a b : UText} {n : ℕ} (g : Grapheme) (h : EditSeq a b n) :
    EditSeq (a ++ [g]) (b ++ [g]) n := by
  induction h with
  | nil => exact .keep g .nil
  | keep g' _ ih => exact .keep g' ih
  | subst hne _ ih => exact .subst hne ih
  | delete g' _ ih => exact .delete g' ih
  | insert g' _ ih => exact .insert g' ih

theorem editSeq_subst_end {a b : UText} {n : ℕ} {g h : Grapheme} (hne : g ≠ h)
    (hs : EditSeq a b n) : EditSeq (a ++ [g]) (b ++ [h]) (n + 1) := by
  induction hs with
  | nil => exact .subst hne .nil
  | keep g' _ ih => exact .keep g' ih
  | subst hne' _ ih => exact .subst hne' ih
  | delete g' _ ih => exact .delete g' ih
  | insert g' _ ih => exact .insert g' ih

theorem editSeq_delete_end {a b : UText} {n : ℕ} (g : Grapheme) (h : EditSeq a b n) :
    EditSeq (a ++ [g]) b (n + 1) := by
  induction h with
  | nil => exact .delete g .nil
  | keep g' _ ih => exact .keep g' ih
  | subst hne _ ih => exact .subst hne ih
  | delete g' _ ih => exact .delete g' ih
  | insert g' _ ih => exact .insert g' ih

theorem editSeq_insert_end {a b : UText} {n : ℕ} (g : Grapheme) (h : EditSeq a b n) :
    EditSeq a (b ++ [g]) (n + 1) := by
  induction h with
  | nil => exact .insert g .nil
  | keep g' _ ih => exact .keep g' ih
  | subst hne _ ih => exact .subst hne ih
  | delete g' _ ih => exact .delete g' ih
  | insert g' _ ih => exact .insert g' ih

theorem editSeq_reverse {a b : UText} {n : ℕ} (h : EditSeq a b n) :
    EditSeq a.reverse b.reverse n := by
  induction h with
  | nil => exact .nil
  | keep g _ ih => simpa [List.reverse_cons] using editSeq_keep_end g ih
  | subst hne _ ih => simpa [List.reverse_cons] using editSeq_subst_end hne ih
  | delete g _ ih => simpa [List.reverse_cons] using editSeq_delete_end g ih
  | insert g _ ih => simpa [List.reverse_cons] using editSeq_insert_end g ih

theorem lev_reverse (a b : UText) : lev a.reverse b.reverse = lev a b := by
  refine le_antisymm (lev_le_of_editSeq (editSeq_reverse (editSeq_lev a b))) ?_
  have h := lev_le_of_editSeq (editSeq_reverse (editSeq_lev a.reverse b.reverse))
  simpa using h

theorem editSeq_refl (a : UText) : EditSeq a a 0 := by
  induction a with
  | nil => exact .nil
  | cons x xs ih => exact .keep x ih

theorem lev_self (a : UText) : lev a a = 0 :=
  Nat.le_zero.mp (lev_le_of_editSeq (editSeq_refl a))

theorem exists_editSeq_le_max (a b : UText) :
    ∃ n, n ≤ max a.length b.length ∧ EditSeq a b n := by
  induction a generalizing b with
  | nil => exact ⟨b.length, by simp, editSeq_nil_left b⟩
  | cons x xs ih =>
    cases b with
    | nil => exact ⟨xs.length + 1, by simp, editSeq_nil_right _⟩
    | cons y ys =>
      obtain ⟨n, hn, h⟩ := ih ys
      by_cases hxy : x = y
      · subst hxy
        exact ⟨n, by simp only [List.length_cons]; omega, .keep x h⟩
      · exact ⟨n + 1, by simp only [List.length_cons]; omega, .subst hxy h⟩

theorem lev_le_max (a b : UText) : lev a b ≤ max a.length b.length := by
  obtain ⟨n, hn, h⟩ := exists_editSeq_le_max a b
  exact le_trans (lev_le_of_editSeq h) hn

/-! ## Matrix bookkeeping -/

/-- The DP matrix has `r` rows of `c` cells each. -/
def Dims (m : List (List ℕ)) (r c : ℕ) : Prop :=
  m.length = r ∧ ∀ row ∈ m, row.length = c

theorem Dims.rowLen {m : List (List ℕ)} {r c : ℕ} (h : Dims m r c) {i : ℕ} (hi : i < r) :
    (m.getD i []).length = c := by
  have hi' : i < m.length := h.1 ▸ hi
  rw [List.getD_eq_getElem _ _ hi']
  exact h.2 _ (List.getElem_mem hi')

theorem dims_setCell {m : List (List ℕ)} {r c : ℕ} (h : Dims m r c) {i : ℕ} (hi : i < r)
    (j v : ℕ) : Dims (setCell m i j v) r c := by
  refine ⟨by simp [setCell, h.1], ?_⟩
  intro row hrow
  rcases List.mem_or_eq_of_mem_set hrow with h' | h'
  · exact h.2 _ h'
  · subst h'
    rw [List.length_set]
    exact h.rowLen hi

theorem getD_set_self {α : Type} {l : List α} {i : ℕ} (h : i < l.length) (a d : α) :
    (l.set i a).getD i d = a := by
  rw [List.getD_eq_getElem?_getD, List.getElem?_set_self h, Option.getD_some]

theorem getD_set_ne {α : Type} {l : List α} {i j : ℕ} (h : i ≠ j) (a d : α) :
    (l.set i a).getD j d = l.getD j d := by
  rw [List.getD_eq_getElem?_getD, List.getElem?_set_ne h, ← List.getD_eq_getElem?_getD]

theorem getD_of_le {α : Type} {l : List α} {i : ℕ} (h : l.length ≤ i) (d : α) :
    l.getD i d = d := by
  rw [List.getD_eq_getElem?_getD, List.getElem?_eq_none h, Option.getD_none]

theorem getCell_setCell_self {m : List (List ℕ)} {r c : ℕ} (h : Dims m r c) {i j : ℕ}
    (hi : i < r) (hj : j < c) (v : ℕ) : getCell (setCell m i j v) i j = v := by
  have hi' : i < m.length := h.1 ▸ hi
  have hj' : j < (m.getD i []).length := by rw [h.rowLen hi]; exact hj
  unfold getCell setCell
  rw [getD_set_self hi', getD_set_self hj']

theorem getCell_setCell_ne {m : List (List ℕ)} {i j r' c' : ℕ} (hne : i ≠ r' ∨ j ≠ c')
    (v : ℕ) : getCell (setCell m i j v) r' c' = getCell m r' c' := by
  unfold getCell setCell
  rcases hne with hne | hne
  · rw [getD_set_ne hne]
  · by_cases hir : i = r'
    · subst hir
      by_cases hlen : i < m.length
      · rw [getD_set_self hlen, getD_set_ne hne]
      · have hle : m.length ≤ i := le_of_not_lt hlen
        have h1 : (m.set i ((m.getD i []).set j v)).getD i ([] : List ℕ) = [] :=
          getD_of_le (by simpa using hle) _
        have h2 : m.getD i ([] : List ℕ) = [] := getD_of_le hle _
        rw [h1, h2]
    · rw [getD_set_ne hir]

theorem dims_levInit (len1 len2 : ℕ) : Dims (levInit len1 len2) (len1 + 1) (len2 + 1) := by
  unfold levInit
  have hrow : ∀ row ∈ (List.replicate (len1 + 1) (List.replicate (len2 + 1) 0)).mapIdx
      (fun i row => row.set 0 i), row.length = len2 + 1 := by
    intro row hrow
    rcases List.mem_iff_getElem.mp hrow with ⟨i, hi, hrow⟩
    rw [List.getElem_mapIdx] at hrow
    subst hrow
    rw [List.length_set]
    have : i < len1 + 1 := by simpa using hi
    simp
  refine ⟨by simp, ?_⟩
  intro row hmem
  rcases List.mem_or_eq_of_mem_set hmem with h' | h'
  · exact hrow _ h'
  · subst h'
    rw [List.length_mapIdx]
    rcases Nat.eq_zero_or_pos len1 with h0 | h0
    all_goals
      rw [List.getD_eq_getElem?_getD, List.getElem?_eq_getElem (by simp), Option.getD_some,
        List.getElem_mapIdx, List.length_set]
      simp

theorem getCell_levInit (len1 len2 r c : ℕ) (hr : r ≤ len1) (hc : c ≤ len2) :
    getCell (levInit len1 len2) r c = if r = 0 then c else if c = 0 then r else 0 := by
  simp only [levInit]
  set A : List ℕ := List.replicate (len2 + 1) 0 with hA
  set matrix1 := (List.replicate (len1 + 1) A).mapIdx (fun i row => row.set 0 i) with hm1
  have hm1len : matrix1.length = len1 + 1 := by simp [hm1]
  have f1 : ∀ i, i < len1 + 1 → matrix1.getD i [] = A.set 0 i := by
    intro i hi
    rw [List.getD_eq_getElem _ _ (by rw [hm1len]; exact hi)]
    simp [hm1, List.getElem_mapIdx]
  have hA00 : A.set 0 0 = A := by
    rw [hA, List.replicate_succ]
    rfl
  have hAlen : A.length = len2 + 1 := by simp [hA]
  have hAget : ∀ c', c' ≠ 0 → A.getD c' 0 = 0 := by
    intro c' _
    rcases Nat.lt_or_ge c' A.length with h | h
    · rw [List.getD_eq_getElem _ _ h]
      simp [hA]
    · exact getD_of_le h _
  have hrow0 : matrix1.getD 0 [] = A := by rw [f1 0 (by omega), hA00]
  have r0val : ∀ c', c' < len2 + 1 →
      ((matrix1.getD 0 []).mapIdx fun j _ => j).getD c' 0 = c' := by
    intro c' hc'
    rw [hrow0, List.getD_eq_getElem _ _ (by rw [List.length_mapIdx, hAlen]; exact hc')]
    simp [List.getElem_mapIdx]
  by_cases hr0 : r = 0
  · subst hr0
    unfold getCell
    rw [getD_set_self (by omega), r0val c (by omega)]
    simp
  · unfold getCell
    rw [getD_set_ne (Ne.symm hr0), f1 r (by omega)]
    by_cases hc0 : c = 0
    · subst hc0
      rw [getD_set_self (by omega)]
      simp [hr0]
    · rw [getD_set_ne (fun h => hc0 h.symm), hAget c hc0]
      simp [hr0, hc0]

/-! ## The ideal cell values of the DP matrix -/

/-- The value cell `(i, j)` of the matrix is meant to hold: the edit distance
of the first `i` graphemes of `s1` and the first `j` graphemes of `s2`
(reversed so that `lev`, which recurses on heads, peels the last grapheme). -/
def levTake (s1 s2 : UText) (i j : ℕ) : ℕ :=
  lev ((s1.take i).reverse) ((s2.take j).reverse)

theorem levTake_zero_left (s1 s2 : UText) {j : ℕ} (hj : j ≤ s2.length) :
    levTake s1 s2 0 j = j := by
  simp only [levTake, List.take_zero, List.reverse_nil, lev_nil, List.length_reverse,
    List.length_take]
  omega

theorem levTake_zero_right (s1 s2 : UText) {i : ℕ} (hi : i ≤ s1.length) :
    levTake s1 s2 i 0 = i := by
  simp only [levTake, List.take_zero, List.reverse_nil, lev_xs_nil, List.length_reverse,
    List.length_take]
  omega

theorem levTake_succ_succ (s1 s2 : UText) {i j : ℕ} (hi : i < s1.length)
    (hj : j < s2.length) :
    levTake s1 s2 (i + 1) (j + 1) =
      min (min (levTake s1 s2 i (j + 1) + 1) (levTake s1 s2 (i + 1) j + 1))
        (levTake s1 s2 i j + if s1.getD i [] = s2.getD j [] then 0 else 1) := by
  have h1 : (s1.take (i + 1)).reverse = s1.getD i [] :: (s1.take i).reverse := by
    rw [List.take_succ, List.getElem?_eq_getElem hi, List.getD_eq_getElem _ _ hi]
    simp
  have h2 : (s2.take (j + 1)).reverse = s2.getD j [] :: (s2.take j).reverse := by
    rw [List.take_succ, List.getElem?_eq_getElem hj, List.getD_eq_getElem _ _ hj]
    simp
  simp only [levTake]
  rw [h1, h2, lev_cons_cons]

/-! ## The inner and outer loops compute the ideal cell values -/

theorem innerLoop (s1 s2 : UText) {i : ℕ} (hi1 : 1 ≤ i) (hi : i ≤ s1.length) :
    ∀ (cnt j0 : ℕ) (m : List (List ℕ)),
      1 ≤ j0 → j0 + cnt = s2.length + 1 →
      Dims m (s1.length + 1) (s2.length + 1) →
      (∀ r c, r < i → c ≤ s2.length → getCell m r c = levTake s1 s2 r c) →
      (∀ c, c < j0 → getCell m i c = levTake s1 s2 i c) →
      (∀ r, i < r → r ≤ s1.length → getCell m r 0 = r) →
      Dims ((List.range' j0 cnt).foldl (fun m j => levStep s1 s2 m i j) m)
          (s1.length + 1) (s2.length + 1) ∧
        (∀ r c, r < i → c ≤ s2.length →
          getCell ((List.range' j0 cnt).foldl (fun m j => levStep s1 s2 m i j) m) r c =
            levTake s1 s2 r c) ∧
        (∀ c, c < j0 + cnt →
          getCell ((List.range' j0 cnt).foldl (fun m j => levStep s1 s2 m i j) m) i c =
            levTake s1 s2 i c) ∧
        (∀ r, i < r → r ≤ s1.length →
          getCell ((List.range' j0 cnt).foldl (fun m j => levStep s1 s2 m i j) m) r 0 = r) := by
  intro cnt
  induction cnt with
  | zero =>
    intro j0 m _ _ hdims hrows hrow hcol
    simpa using ⟨hdims, hrows, fun c hc => hrow c (by omega), hcol⟩
  | succ cnt ih =>
    intro j0 m hj0 hcnt hdims hrows hrow hcol
    have hj0n : j0 ≤ s2.length := by omega
    obtain ⟨i', rfl⟩ : ∃ i', i = i' + 1 := ⟨i - 1, by omega⟩
    obtain ⟨j', rfl⟩ : ∃ j', j0 = j' + 1 := ⟨j0 - 1, by omega⟩
    rw [List.range'_succ]
    simp only [List.foldl_cons]
    set v : ℕ := min (min (getCell m ((i' + 1) - 1) (j' + 1) + 1)
        (getCell m (i' + 1) ((j' + 1) - 1) + 1))
      (getCell m ((i' + 1) - 1) ((j' + 1) - 1) +
        if s1.getD ((i' + 1) - 1) [] = s2.getD ((j' + 1) - 1) [] then 0 else 1) with hv
    have hstep : levStep s1 s2 m (i' + 1) (j' + 1) = setCell m (i' + 1) (j' + 1) v := by
      rw [levStep]
    have hvval : v = levTake s1 s2 (i' + 1) (j' + 1) := by
      rw [hv]
      simp only [Nat.add_sub_cancel]
      rw [hrows i' (j' + 1) (by omega) (by omega),
        hrow j' (by omega), hrows i' j' (by omega) (by omega),
        levTake_succ_succ s1 s2 (by omega) (by omega)]
    have hdims1 : Dims (setCell m (i' + 1) (j' + 1) v) (s1.length + 1) (s2.length + 1) :=
      dims_setCell hdims (by omega) _ _
    have hrows1 : ∀ r c, r < i' + 1 → c ≤ s2.length →
        getCell (setCell m (i' + 1) (j' + 1) v) r c = levTake s1 s2 r c := by
      intro r c hr hc
      rw [getCell_setCell_ne (Or.inl (by omega)), hrows r c hr hc]
    have hrow1 : ∀ c, c < j' + 1 + 1 →
        getCell (setCell m (i' + 1) (j' + 1) v) (i' + 1) c = levTake s1 s2 (i' + 1) c := by
      intro c hc
      rcases Nat.lt_or_ge c (j' + 1) with h | h
      · rw [getCell_setCell_ne (Or.inr (by omega)), hrow c h]
      · have : c = j' + 1 := by omega
        subst this
        rw [getCell_setCell_self hdims (by omega) (by omega), hvval]
    have hcol1 : ∀ r, i' + 1 < r → r ≤ s1.length →
        getCell (setCell m (i' + 1) (j' + 1) v) r 0 = r := by
      intro r hr hr'
      rw [getCell_setCell_ne (Or.inl (by omega)), hcol r hr hr']
    have := ih (j' + 1 + 1) (setCell m (i' + 1) (j' + 1) v) (by omega) (by omega)
      hdims1 hrows1 hrow1 hcol1
    rw [hstep]
    refine ⟨this.1, this.2.1, ?_, this.2.2.2⟩
    intro c hc
    exact this.2.2.1 c (by omega)

theorem outerLoop (s1 s2 : UText) :
    ∀ (cnt i0 : ℕ) (m : List (List ℕ)),
      1 ≤ i0 → i0 + cnt = s1.length + 1 →
      Dims m (s1.length + 1) (s2.length + 1) →
      (∀ r c, r < i0 → c ≤ s2.length → getCell m r c = levTake s1 s2 r c) →
      (∀ r, i0 ≤ r → r ≤ s1.length → getCell m r 0 = r) →
      ∀ r c, r < i0 + cnt → c ≤ s2.length →
        getCell ((List.range' i0 cnt).foldl
            (fun m i => (List.range' 1 s2.length).foldl (fun m j => levStep s1 s2 m i j) m) m)
          r c = levTake s1 s2 r c := by
  intro cnt
  induction cnt with
  | zero =>
    intro i0 m _ _ _ hrows _ r c hr hc
    exact hrows r c (by omega) hc
  | succ cnt ih =>
    intro i0 m hi0 hcnt hdims hrows hcol r c hr hc
    rw [List.range'_succ]
    simp only [List.foldl_cons]
    have hrow0 : ∀ c', c' < 1 → getCell m i0 c' = levTake s1 s2 i0 c' := by
      intro c' hc'
      have : c' = 0 := by omega
      subst this
      rw [hcol i0 (le_refl _) (by omega), levTake_zero_right s1 s2 (by omega)]
    have hcol0 : ∀ r', i0 < r' → r' ≤ s1.length → getCell m r' 0 = r' := by
      intro r' hr' hr''
      exact hcol r' (by omega) hr''
    have hinner := innerLoop s1 s2 hi0 (by omega) s2.length 1 m (le_refl _) (by omega)
      hdims hrows hrow0 hcol0
    refine ih (i0 + 1)
      ((List.range' 1 s2.length).foldl (fun m j => levStep s1 s2 m i0 j) m)
      (by omega) (by omega) hinner.1 ?_ ?_ r c (by omega) hc
    · intro r' c' hr' hc'
      rcases Nat.lt_or_ge r' i0 with h | h
      · exact hinner.2.1 r' c' h hc'
      · have : r' = i0 := by omega
        subst this
        exact hinner.2.2.1 c' (by omega)
    · intro r' hr' hr''
      exact hinner.2.2.2 r' (by omega) hr''

/-- The DP implementation agrees with the reference Levenshtein recurrence. -/
theorem levenshtein_distance_eq_lev (s1 s2 : UText) :
    levenshtein_distance s1 s2 = lev s1 s2 := by
  have hrows : ∀ r c, r < 1 → c ≤ s2.length →
      getCell (levInit s1.length s2.length) r c = levTake s1 s2 r c := by
    intro r c hr hc
    have : r = 0 := by omega
    subst this
    rw [getCell_levInit _ _ _ _ (by omega) hc, levTake_zero_left s1 s2 hc]
    simp
  have hcol : ∀ r, 1 ≤ r → r ≤ s1.length →
      getCell (levInit s1.length s2.length) r 0 = r := by
    intro r hr hr'
    rw [getCell_levInit _ _ _ _ (by omega) (by omega)]
    have : r ≠ 0 := by omega
    simp [this]
  have h := outerLoop s1 s2 s1.length 1 (levInit s1.length s2.length) (le_refl _)
    (by omega) (dims_levInit _ _) hrows hcol s1.length s2.length (by omega) (le_refl _)
  rw [levenshtein_distance, levMatrix, h, levTake, List.take_length, List.take_length,
    lev_reverse]

/-! ## Facts about emptiness, code-point counts and similarity -/

theorem UText.isEmpty_iff_nil {s : UText} (h : s.WF) : s.isEmpty = true ↔ s = [] := by
  unfold UText.isEmpty UText.charCount
  cases s with
  | nil => simp
  | cons g gs =>
    simp only [List.map_cons, List.sum_cons, beq_iff_eq, List.cons_ne_nil, iff_false]
    have hg : g ≠ [] := h g (by simp)
    have : 0 < g.length := List.length_pos.mpr hg
    omega

theorem UText.length_le_charCount {s : UText} (h : s.WF) : s.length ≤ s.charCount := by
  induction s with
  | nil => simp [UText.charCount]
  | cons g gs ih =>
    have hg : g ≠ [] := h g (by simp)
    have h1 : 0 < g.length := List.length_pos.mpr hg
    have h2 : gs.length ≤ UText.charCount gs := ih fun g' hg' => h g' (by simp [hg'])
    simp only [UText.charCount, List.map_cons, List.sum_cons, List.length_cons] at h2 ⊢
    omega

theorem UText.charCount_pos {s : UText} (hne : s.isEmpty = false) : 1 ≤ s.charCount := by
  unfold UText.isEmpty at hne
  rcases Nat.eq_zero_or_pos s.charCount with h0 | h0
  · rw [h0] at hne
    simp at hne
  · exact h0

theorem calculate_similarity_self (s : UText) : calculate_similarity s s = 1 := by
  unfold calculate_similarity
  by_cases h : s.isEmpty
  · simp [h]
  · simp only [Bool.and_self, Bool.or_self, h, if_false]
    rw [levenshtein_distance_eq_lev, lev_self]
    simp

theorem calculate_similarity_comm (s1 s2 : UText) :
    calculate_similarity s1 s2 = calculate_similarity s2 s1 := by
  unfold calculate_similarity
  rw [Bool.and_comm, Bool.or_comm, levenshtein_distance_eq_lev, lev_comm,
    ← levenshtein_distance_eq_lev, max_comm]

theorem calculate_similarity_nonneg {s1 s2 : UText} (h1 : s1.WF) (h2 : s2.WF) :
    0 ≤ calculate_similarity s1 s2 := by
  unfold calculate_similarity
  by_cases he1 : s1.isEmpty
  · by_cases he2 : s2.isEmpty <;> simp [he1, he2]
  · by_cases he2 : s2.isEmpty
    · simp [he1, he2]
    · have e1 : s1.isEmpty = false := by revert he1; cases s1.isEmpty <;> simp
      have e2 : s2.isEmpty = false := by revert he2; cases s2.isEmpty <;> simp
      simp only [e1, e2, Bool.and_false, Bool.false_or, Bool.or_false, Bool.and_self,
        Bool.false_eq_true, if_false]
      rw [sub_nonneg]
      have hmax : 1 ≤ max s1.charCount s2.charCount :=
        le_trans (UText.charCount_pos e1) (le_max_left _ _)
      have hm : (0 : ℚ) < ((max s1.charCount s2.charCount : ℕ) : ℚ) := by
        exact_mod_cast lt_of_lt_of_le Nat.zero_lt_one hmax
      have hd : levenshtein_distance s1 s2 ≤ max s1.charCount s2.charCount := by
        rw [levenshtein_distance_eq_lev]
        refine le_trans (lev_le_max s1 s2) ?_
        exact max_le_max (UText.length_le_charCount h1) (UText.length_le_charCount h2)
      rw [div_le_one hm]
      exact_mod_cast hd

theorem calculate_similarity_le_one (s1 s2 : UText) : calculate_similarity s1 s2 ≤ 1 := by
  unfold calculate_similarity
  by_cases he1 : s1.isEmpty
  · by_cases he2 : s2.isEmpty <;> simp [he1, he2]
  · by_cases he2 : s2.isEmpty
    · simp [he1, he2]
    · have e1 : s1.isEmpty = false := by revert he1; cases s1.isEmpty <;> simp
      have e2 : s2.isEmpty = false := by revert he2; cases s2.isEmpty <;> simp
      simp only [e1, e2, Bool.and_false, Bool.false_or, Bool.or_false, Bool.and_self,
        Bool.false_eq_true, if_false]
      have : (0 : ℚ) ≤ (levenshtein_distance s1 s2 : ℚ) /
          ((max s1.charCount s2.charCount : ℕ) : ℚ) := by
        apply div_nonneg <;> positivity
      linarith

/-! ## Pair enumeration -/

theorem enumFrom_eq_map_range {α : Type} (l : List α) (d : α) :
    ∀ k : ℕ, l.enumFrom k = (List.range l.length).map fun i => (k + i, l.getD i d) := by
  induction l with
  | nil => intro k; simp
  | cons c cs ih =>
    intro k
    rw [List.length_cons, List.range_succ_eq_map, List.map_cons, List.map_map]
    simp only [List.enumFrom, Nat.add_zero, List.getD_cons_zero]
    rw [ih (k + 1)]
    refine congrArg _ ?_
    refine List.map_congr_left ?_
    intro i _
    simp only [Function.comp_apply, Nat.succ_eq_add_one, List.getD_cons_succ]
    refine congrArg (fun t => (t, cs.getD i d)) ?_
    omega

theorem enum_eq_map_range {α : Type} (l : List α) (d : α) :
    l.enum = (List.range l.length).map fun i => (i, l.getD i d) := by
  rw [List.enum, enumFrom_eq_map_range l d 0]
  refine List.map_congr_left ?_
  intro i _
  simp

theorem drop_eq_map_range' {α : Type} (l : List α) (d : α) :
    ∀ k : ℕ, k ≤ l.length →
      l.drop k = (List.range' k (l.length - k)).map fun j => l.getD j d := by
  induction l with
  | nil =>
    intro k hk
    simp at hk
    subst hk
    simp
  | cons c cs ih =>
    intro k hk
    cases k with
    | zero =>
      rw [List.drop_zero, List.length_cons, Nat.sub_zero, List.range'_succ, List.map_cons,
        List.getD_cons_zero]
      simp only [Nat.zero_add]
      refine congrArg _ ?_
      have h1 : List.range' 1 cs.length = (List.range' 0 cs.length).map fun x => 1 + x :=
        (List.map_add_range' 1 0 cs.length 1).symm
      rw [h1, List.map_map]
      have h0 := ih 0 (Nat.zero_le _)
      simp only [List.drop_zero, Nat.sub_zero] at h0
      conv_lhs => rw [h0]
      refine List.map_congr_left ?_
      intro j _
      simp only [Function.comp_apply]
      rw [Nat.add_comm 1 j, List.getD_cons_succ]
    | succ k' =>
      rw [List.drop_succ_cons, ih k' (by simpa using hk), List.length_cons]
      have harith : cs.length + 1 - (k' + 1) = cs.length - k' := by omega
      rw [harith, show k' + 1 = 1 + k' from Nat.add_comm k' 1,
        ← List.map_add_range' 1 k' (cs.length - k') 1, List.map_map]
      refine List.map_congr_left ?_
      intro j _
      simp only [Function.comp_apply]
      rw [Nat.add_comm 1 j, List.getD_cons_succ]

/-! ## Score-level lemmas -/

/-- The weighted similarity sum of `calculate_match_score` (the local `score`
variable of the source, before rescaling). -/
def weightedSum (contact1 contact2 : Contact) : ℚ :=
  calculate_similarity contact1.name contact2.name * 2
    + calculate_similarity contact1.last_name contact2.last_name * 2
    + calculate_similarity contact1.email contact2.email * 3
    + calculate_similarity contact1.zip_code contact2.zip_code * 2
    + calculate_similarity contact1.address contact2.address * 2

theorem calculate_match_score_def (contact1 contact2 : Contact) :
    calculate_match_score contact1 contact2 =
      truncToInt (weightedSum contact1 contact2 * 1000 / 11) := rfl

theorem rat_floor_eq_intFloor (q : ℚ) : q.floor = ⌊q⌋ :=
  (Rat.floor_def' q).trans Rat.floor_def.symm

theorem truncToInt_of_nonneg {q : ℚ} (h : 0 ≤ q) : truncToInt q = ⌊q⌋ := by
  unfold truncToInt
  rw [if_neg (not_lt.mpr h), rat_floor_eq_intFloor]

theorem weightedSum_nonneg {c1 c2 : Contact} (h1 : c1.WF) (h2 : c2.WF) :
    0 ≤ weightedSum c1 c2 := by
  obtain ⟨h1a, h1b, h1c, h1d, h1e⟩ := h1
  obtain ⟨h2a, h2b, h2c, h2d, h2e⟩ := h2
  unfold weightedSum
  have t1 := calculate_similarity_nonneg h1a h2a
  have t2 := calculate_similarity_nonneg h1b h2b
  have t3 := calculate_similarity_nonneg h1c h2c
  have t4 := calculate_similarity_nonneg h1d h2d
  have t5 := calculate_similarity_nonneg h1e h2e
  linarith

theorem weightedSum_le_eleven (c1 c2 : Contact) : weightedSum c1 c2 ≤ 11 := by
  unfold weightedSum
  have t1 := calculate_similarity_le_one c1.name c2.name
  have t2 := calculate_similarity_le_one c1.last_name c2.last_name
  have t3 := calculate_similarity_le_one c1.email c2.email
  have t4 := calculate_similarity_le_one c1.zip_code c2.zip_code
  have t5 := calculate_similarity_le_one c1.address c2.address
  linarith

theorem calculate_match_score_nonneg {c1 c2 : Contact} (h1 : c1.WF) (h2 : c2.WF) :
    0 ≤ calculate_match_score c1 c2 := by
  rw [calculate_match_score_def]
  have hq : 0 ≤ weightedSum c1 c2 * 1000 / 11 := by
    have := weightedSum_nonneg h1 h2
    positivity
  rw [truncToInt_of_nonneg hq]
  exact Int.le_floor.mpr (by exact_mod_cast hq)

theorem calculate_match_score_le_1000 {c1 c2 : Contact} (h1 : c1.WF) (h2 : c2.WF) :
    calculate_match_score c1 c2 ≤ 1000 := by
  rw [calculate_match_score_def]
  have hq : 0 ≤ weightedSum c1 c2 * 1000 / 11 := by
    have := weightedSum_nonneg h1 h2
    positivity
  rw [truncToInt_of_nonneg hq]
  have hle : weightedSum c1 c2 * 1000 / 11 ≤ 1000 := by
    have := weightedSum_le_eleven c1 c2
    rw [div_le_iff₀ (by norm_num)]
    linarith
  calc ⌊weightedSum c1 c2 * 1000 / 11⌋ ≤ ⌊(1000 : ℚ)⌋ := Int.floor_le_floor hle
    _ = 1000 := by norm_num

theorem calculate_match_score_identical {c1 c2 : Contact} (hname : c1.name = c2.name)
    (hlast : c1.last_name = c2.last_name) (hemail : c1.email = c2.email)
    (hzip : c1.zip_code = c2.zip_code) (haddr : c1.address = c2.address) :
    calculate_match_score c1 c2 = 1000 := by
  rw [calculate_match_score_def]
  have hsum : weightedSum c1 c2 = 11 := by
    unfold weightedSum
    rw [hname, hlast, hemail, hzip, haddr, calculate_similarity_self,
      calculate_similarity_self, calculate_similarity_self, calculate_similarity_self,
      calculate_similarity_self]
    norm_num
  rw [hsum]
  norm_num
  rw [truncToInt_of_nonneg (by norm_num)]
  norm_num

/-! ## Structure of the enumerated pair list -/

theorem contactPairs_eq_indexPairs_map (contacts : List Contact) :
    contactPairs contacts =
      (indexPairs contacts.length).map fun p =>
        (contacts.getD p.1 default, contacts.getD p.2 default) := by
  unfold contactPairs indexPairs
  rw [enum_eq_map_range contacts default, List.flatMap_map, List.map_flatMap]
  rw [List.flatMap, List.flatMap]
  refine congrArg _ ?_
  refine List.map_congr_left ?_
  intro i hi
  rw [List.mem_range] at hi
  rw [drop_eq_map_range' contacts default (i + 1) (by omega), List.map_map, List.map_map]
  rfl

theorem indexPairs_mem (n : ℕ) (p : ℕ × ℕ) : p ∈ indexPairs n ↔ p.1 < p.2 ∧ p.2 < n := by
  unfold indexPairs
  simp only [List.mem_flatMap, List.mem_map, List.mem_range, List.mem_range'_1]
  constructor
  · rintro ⟨i, hi, j, ⟨hj1, hj2⟩, rfl⟩
    constructor
    · omega
    · simp only []
      omega
  · intro ⟨h1, h2⟩
    obtain ⟨a, b⟩ := p
    exact ⟨a, by omega, b, ⟨by omega, by omega⟩, rfl⟩

theorem indexPairs_nodup (n : ℕ) : (indexPairs n).Nodup := by
  unfold indexPairs
  rw [List.nodup_flatMap]
  constructor
  · intro i _
    refine List.Nodup.map ?_ (List.nodup_range' _ _)
    intro a b hab
    simpa using congrArg Prod.snd hab
  · refine List.Pairwise.imp ?_ (List.nodup_range n)
    intro a b hab x hxa hxb
    rcases List.mem_map.mp hxa with ⟨j1, _, rfl⟩
    rcases List.mem_map.mp hxb with ⟨j2, _, heq⟩
    exact hab (congrArg Prod.fst heq).symm

theorem indexPairs_succ (n : ℕ) :
    indexPairs (n + 1) =
      ((List.range' 1 n).map fun j => (0, j)) ++
        (indexPairs n).map fun p => (p.1 + 1, p.2 + 1) := by
  unfold indexPairs
  rw [List.range_succ_eq_map, List.flatMap_cons, List.flatMap_map, List.map_flatMap]
  refine congrArg₂ _ ?_ ?_
  · norm_num
  · rw [List.flatMap, List.flatMap]
    refine congrArg _ ?_
    refine List.map_congr_left ?_
    intro i _
    simp only [Nat.succ_eq_add_one, List.map_map]
    have harith : n + 1 - (i + 1 + 1) = n - (i + 1) := by omega
    rw [harith, show i + 1 + 1 = 1 + (i + 1) from by omega,
      ← List.map_add_range' 1 (i + 1) (n - (i + 1)) 1, List.map_map]
    refine List.map_congr_left ?_
    intro j _
    simp only [Function.comp_apply]
    refine congrArg (fun t => (i + 1, t)) ?_
    omega

theorem indexPairs_length (n : ℕ) : (indexPairs n).length = n * (n - 1) / 2 := by
  have key : ∀ m : ℕ, 2 * (indexPairs m).length + m = m * m := by
    intro m
    induction m with
    | zero => rfl
    | succ k ih =>
      rw [indexPairs_succ]
      simp only [List.length_append, List.length_map, List.length_range']
      have h2 : (k + 1) * (k + 1) = k * k + 2 * k + 1 := by ring
      rw [h2]
      generalize k * k = A at ih ⊢
      omega
  have key2 : 2 * (indexPairs n).length = n * (n - 1) := by
    cases n with
    | zero => simpa using key 0
    | succ k =>
      have h1 := key (k + 1)
      have h2 : (k + 1) * (k + 1) = (k + 1) * k + (k + 1) := by ring
      rw [h2] at h1
      have h3 : k + 1 - 1 = k := rfl
      rw [h3]
      generalize (k + 1) * k = A at h1 ⊢
      omega
  generalize hB : n * (n - 1) = B at key2 ⊢
  omega

/-! ## Filtering lemmas -/

theorem scoreFilter_eq_some_iff (t : ℤ) (p : Contact × Contact) (r : SimilarityScore) :
    scoreFilter t p = some r ↔
      t ≤ calculate_match_score p.1 p.2 ∧
        r = ⟨p.1.id, p.2.id, calculate_match_score p.1 p.2⟩ := by
  unfold scoreFilter
  by_cases hc : calculate_match_score p.1 p.2 ≥ t
  · rw [if_pos hc]
    simp only [Option.some.injEq]
    constructor
    · intro h
      exact ⟨hc, h.symm⟩
    · intro ⟨_, h⟩
      exact h.symm
  · rw [if_neg hc]
    rw [ge_iff_le] at hc
    simp [hc]

theorem scoreFilter_pos (t : ℤ) (p : Contact × Contact)
    (h : t ≤ calculate_match_score p.1 p.2) :
    scoreFilter t p = some ⟨p.1.id, p.2.id, calculate_match_score p.1 p.2⟩ := by
  unfold scoreFilter
  rw [if_pos h]

theorem scoreFilter_neg (t : ℤ) (p : Contact × Contact)
    (h : ¬t ≤ calculate_match_score p.1 p.2) : scoreFilter t p = none := by
  unfold scoreFilter
  rw [if_neg h]

theorem filterMap_scoreFilter_length_mono {t1 t2 : ℤ} (h : t1 ≤ t2) :
    ∀ l : List (Contact × Contact),
      (l.filterMap (scoreFilter t2)).length ≤ (l.filterMap (scoreFilter t1)).length := by
  intro l
  induction l with
  | nil => simp
  | cons p ps ih =>
    rw [List.filterMap_cons, List.filterMap_cons]
    by_cases h2 : t2 ≤ calculate_match_score p.1 p.2
    · rw [scoreFilter_pos t2 p h2, scoreFilter_pos t1 p (le_trans h h2)]
      simpa using ih
    · rw [scoreFilter_neg t2 p h2]
      by_cases h1 : t1 ≤ calculate_match_score p.1 p.2
      · rw [scoreFilter_pos t1 p h1]
        simp only [List.length_cons]
        omega
      · rw [scoreFilter_neg t1 p h1]
        exact ih

/-! ## Dimension preservation for the whole matrix -/

theorem dims_setCell_any {m : List (List ℕ)} {r c : ℕ} (h : Dims m r c) (i j v : ℕ) :
    Dims (setCell m i j v) r c := by
  rcases Nat.lt_or_ge i m.length with hi | hi
  · exact dims_setCell h (h.1 ▸ hi) j v
  · unfold setCell
    rw [List.set_eq_of_length_le hi]
    exact h

theorem dims_levStep {m : List (List ℕ)} {r c : ℕ} (h : Dims m r c) (s1 s2 : UText)
    (i j : ℕ) : Dims (levStep s1 s2 m i j) r c := by
  unfold levStep
  exact dims_setCell_any h _ _ _

theorem dims_foldl_inner {r c : ℕ} (s1 s2 : UText) (i : ℕ) :
    ∀ (l : List ℕ) (m : List (List ℕ)), Dims m r c →
      Dims (l.foldl (fun m j => levStep s1 s2 m i j) m) r c := by
  intro l
  induction l with
  | nil => intro m h; exact h
  | cons j l ih =>
    intro m h
    exact ih _ (dims_levStep h s1 s2 i j)

theorem dims_foldl_outer {r c : ℕ} (s1 s2 : UText) :
    ∀ (l : List ℕ) (m : List (List ℕ)), Dims m r c →
      Dims (l.foldl
        (fun m i => (List.range' 1 s2.length).foldl (fun m j => levStep s1 s2 m i j) m) m)
      r c := by
  intro l
  induction l with
  | nil => intro m h; exact h
  | cons i l ih =>
    intro m h
    exact ih _ (dims_foldl_inner s1 s2 i _ _ h)

theorem dims_levMatrix (s1 s2 : UText) :
    Dims (levMatrix s1 s2) (s1.length + 1) (s2.length + 1) := by
  unfold levMatrix
  exact dims_foldl_outer s1 s2 _ _ (dims_levInit _ _)

/-! ## Concrete records from the specification's end-to-end example -/

/-- The record `("John","Doe","john@example.com","12345","123 Main St")`. -/
def johnContact : Contact :=
  ⟨1, asciiText "John", asciiText "Doe", asciiText "john@example.com", asciiText "12345",
    asciiText "123 Main St"⟩

/-- The record `("Jon","Doe","john@example.com","12345","123 Main Street")`. -/
def jonContact : Contact :=
  ⟨2, asciiText "Jon", asciiText "Doe", asciiText "john@example.com", asciiText "12345",
    asciiText "123 Main Street"⟩

/-- The record `("Jane","Smith","jane@example.com","54321","456 Oak Ave")`. -/
def janeContact : Contact :=
  ⟨3, asciiText "Jane", asciiText "Smith", asciiText "jane@example.com", asciiText "54321",
    asciiText "456 Oak Ave"⟩

set_option maxRecDepth 40000 in
unseal Rat.mul Rat.inv Rat.add Rat.sub in
theorem score_john_jon : calculate_match_score johnContact jonContact = 906 := by decide

set_option maxRecDepth 40000 in
unseal Rat.mul Rat.inv Rat.add Rat.sub in
theorem score_john_jane : calculate_match_score johnContact janeContact = 336 := by decide

/-! ## The claims -/

/-- C1: for the record pair John/Jon the match score is exactly 906, and for
John/Jane it is exactly 336, for arbitrary ids. -/
theorem C1_end_to_end_scores (id1 id2 id3 : ℤ) :
    calculate_match_score
        ⟨id1, asciiText "John", asciiText "Doe", asciiText "john@example.com",
          asciiText "12345", asciiText "123 Main St"⟩
        ⟨id2, asciiText "Jon", asciiText "Doe", asciiText "john@example.com",
          asciiText "12345", asciiText "123 Main Street"⟩ = 906 ∧
      calculate_match_score
        ⟨id1, asciiText "John", asciiText "Doe", asciiText "john@example.com",
          asciiText "12345", asciiText "123 Main St"⟩
        ⟨id3, asciiText "Jane", asciiText "Smith", asciiText "jane@example.com",
          asciiText "54321", asciiText "456 Oak Ave"⟩ = 336 :=
  ⟨score_john_jon, score_john_jane⟩

/-- C2: for well-formed texts, similarity is 1 when both are empty, 0 when
exactly one is empty, and otherwise `1 - lev(a,b) / max(charCount a, charCount b)`,
where `lev` is the grapheme-cluster edit distance but the denominator counts
code points. -/
theorem C2_similarity_spec (s1 s2 : UText) (h1 : s1.WF) (h2 : s2.WF) :
    calculate_similarity s1 s2 =
      if s1 = [] ∧ s2 = [] then 1
      else if s1 = [] ∨ s2 = [] then 0
      else 1 - (lev s1 s2 : ℚ) / ((max s1.charCount s2.charCount : ℕ) : ℚ) := by
  unfold calculate_similarity
  have vnil : UText.isEmpty ([] : UText) = true := rfl
  by_cases e1 : s1 = [] <;> by_cases e2 : s2 = []
  · subst e1
    subst e2
    simp [vnil]
  · subst e1
    have v2 : s2.isEmpty = false := by
      rw [Bool.eq_false_iff]
      exact fun hh => e2 ((UText.isEmpty_iff_nil h2).mp hh)
    simp [vnil, v2, e2]
  · subst e2
    have v1 : s1.isEmpty = false := by
      rw [Bool.eq_false_iff]
      exact fun hh => e1 ((UText.isEmpty_iff_nil h1).mp hh)
    simp [vnil, v1, e1]
  · have v1 : s1.isEmpty = false := by
      rw [Bool.eq_false_iff]
      exact fun hh => e1 ((UText.isEmpty_iff_nil h1).mp hh)
    have v2 : s2.isEmpty = false := by
      rw [Bool.eq_false_iff]
      exact fun hh => e2 ((UText.isEmpty_iff_nil h2).mp hh)
    simp only [v1, v2, Bool.and_false, Bool.or_false, Bool.false_eq_true, if_false, e1, e2,
      false_and, or_self]
    rw [levenshtein_distance_eq_lev]

/-- C2 witness: the specification instantiated at the well-formed texts
"John" and "Jon". -/
theorem C2_similarity_spec_witness :
    (asciiText "John").WF ∧ (asciiText "Jon").WF ∧
      calculate_similarity (asciiText "John") (asciiText "Jon") =
        (if asciiText "John" = [] ∧ asciiText "Jon" = [] then 1
        else if asciiText "John" = [] ∨ asciiText "Jon" = [] then 0
        else 1 - (lev (asciiText "John") (asciiText "Jon") : ℚ) /
          ((max (asciiText "John").charCount (asciiText "Jon").charCount : ℕ) : ℚ)) :=
  ⟨by decide, by decide, C2_similarity_spec _ _ (by decide) (by decide)⟩

/-- C3: the DP distance is the least number of single-grapheme edit operations
transforming one grapheme sequence into the other; it agrees with the textbook
recurrence, and on an empty side it equals the grapheme count (not the
code-point count) of the other side. -/
theorem C3_least_edit_distance (s1 s2 : UText) :
    IsLeast {n : ℕ | EditSeq s1 s2 n} (levenshtein_distance s1 s2) ∧
      levenshtein_distance s1 s2 = lev s1 s2 ∧
      levenshtein_distance ([] : UText) ([] : UText) = 0 ∧
      levenshtein_distance [] s2 = s2.length ∧
      levenshtein_distance s1 [] = s1.length := by
  refine ⟨?_, levenshtein_distance_eq_lev s1 s2, ?_, ?_, ?_⟩
  · rw [levenshtein_distance_eq_lev]
    exact lev_isLeast s1 s2
  · rw [levenshtein_distance_eq_lev, lev_nil]
    rfl
  · rw [levenshtein_distance_eq_lev, lev_nil]
  · rw [levenshtein_distance_eq_lev, lev_xs_nil]

/-- C4: for well-formed records the score lies in `[0, 1000]`; records that
agree on all five fields (including all-empty) score exactly 1000; and the
final integer conversion is truncation toward zero, which on the nonnegative
weighted sum is the floor. -/
theorem C4_score_range (c1 c2 : Contact) (h1 : c1.WF) (h2 : c2.WF) :
    0 ≤ calculate_match_score c1 c2 ∧ calculate_match_score c1 c2 ≤ 1000 ∧
      (c1.name = c2.name → c1.last_name = c2.last_name → c1.email = c2.email →
        c1.zip_code = c2.zip_code → c1.address = c2.address →
        calculate_match_score c1 c2 = 1000) ∧
      calculate_match_score c1 c2 = ⌊weightedSum c1 c2 * 1000 / 11⌋ := by
  refine ⟨calculate_match_score_nonneg h1 h2, calculate_match_score_le_1000 h1 h2,
    fun ha hb hc hd he => calculate_match_score_identical ha hb hc hd he, ?_⟩
  rw [calculate_match_score_def]
  refine truncToInt_of_nonneg ?_
  have := weightedSum_nonneg h1 h2
  positivity

/-- C4 witness: the range claim instantiated at the John and Jon records. -/
theorem C4_score_range_witness :
    johnContact.WF ∧ jonContact.WF ∧
      (0 ≤ calculate_match_score johnContact jonContact ∧
        calculate_match_score johnContact jonContact ≤ 1000 ∧
        (johnContact.name = jonContact.name →
          johnContact.last_name = jonContact.last_name →
          johnContact.email = jonContact.email →
          johnContact.zip_code = jonContact.zip_code →
          johnContact.address = jonContact.address →
          calculate_match_score johnContact jonContact = 1000) ∧
        calculate_match_score johnContact jonContact =
          ⌊weightedSum johnContact jonContact * 1000 / 11⌋) :=
  ⟨by decide, by decide, C4_score_range johnContact jonContact (by decide) (by decide)⟩

/-- C5: the match score is symmetric in its two record arguments, because
every constituent similarity (and hence the grapheme edit distance) is
symmetric. -/
theorem C5_score_symmetric (c1 c2 : Contact) :
    calculate_match_score c1 c2 = calculate_match_score c2 c1 := by
  rw [calculate_match_score_def, calculate_match_score_def]
  unfold weightedSum
  rw [calculate_similarity_comm c1.name c2.name,
    calculate_similarity_comm c1.last_name c2.last_name,
    calculate_similarity_comm c1.email c2.email,
    calculate_similarity_comm c1.zip_code c2.zip_code,
    calculate_similarity_comm c1.address c2.address]

/-- C6: the pair generation enumerates exactly the index pairs
`{(i, j) | i < j < N}`, each exactly once, `N(N-1)/2` in total, and each
emitted pair puts the record of the smaller source index first. -/
theorem C6_pair_enumeration (contacts : List Contact) :
    contactPairs contacts =
      (indexPairs contacts.length).map
        (fun p => (contacts.getD p.1 default, contacts.getD p.2 default)) ∧
      (∀ p : ℕ × ℕ, p ∈ indexPairs contacts.length ↔ p.1 < p.2 ∧ p.2 < contacts.length) ∧
      (indexPairs contacts.length).Nodup ∧
      (indexPairs contacts.length).length = contacts.length * (contacts.length - 1) / 2 ∧
      (contactPairs contacts).length = contacts.length * (contacts.length - 1) / 2 := by
  refine ⟨contactPairs_eq_indexPairs_map contacts, indexPairs_mem _, indexPairs_nodup _,
    indexPairs_length _, ?_⟩
  rw [contactPairs_eq_indexPairs_map contacts, List.length_map, indexPairs_length]

/-- C7: a `SimilarityScore` is in the result exactly when it records an
enumerated pair whose match score meets the threshold, together with that
pair's two original ids and its computed score. -/
theorem C7_threshold_filter (contacts : List Contact) (threshold : ℤ) (r : SimilarityScore) :
    r ∈ calculate_similarity_scores contacts threshold ↔
      ∃ p ∈ contactPairs contacts,
        threshold ≤ calculate_match_score p.1 p.2 ∧
          r = ⟨p.1.id, p.2.id, calculate_match_score p.1 p.2⟩ := by
  unfold calculate_similarity_scores
  rw [List.mem_filterMap]
  constructor
  · rintro ⟨p, hp, hf⟩
    rcases (scoreFilter_eq_some_iff _ _ _).mp hf with ⟨ha, hb⟩
    exact ⟨p, hp, ha, hb⟩
  · rintro ⟨p, hp, ha, hb⟩
    exact ⟨p, hp, (scoreFilter_eq_some_iff _ _ _).mpr ⟨ha, hb⟩⟩

/-- C8: raising the threshold never increases the number of results. -/
theorem C8_threshold_monotone (contacts : List Contact) (t1 t2 : ℤ) (h : t1 ≤ t2) :
    (calculate_similarity_scores contacts t2).length ≤
      (calculate_similarity_scores contacts t1).length :=
  filterMap_scoreFilter_length_mono h (contactPairs contacts)

/-- C8 witness: thresholds 0 and 1000 on the three example records. -/
theorem C8_threshold_monotone_witness :
    (0 : ℤ) ≤ 1000 ∧
      (calculate_similarity_scores [johnContact, jonContact, janeContact] 1000).length ≤
        (calculate_similarity_scores [johnContact, jonContact, janeContact] 0).length :=
  ⟨by norm_num, C8_threshold_monotone [johnContact, jonContact, janeContact] 0 1000
    (by norm_num)⟩

/-- C9: the DP matrix always has `len1 + 1` rows of `len2 + 1` cells, every
index used by the fill loops is strictly in bounds, and for well-formed
nonempty strings the normalising denominator is at least 1, so the similarity
division can never be by zero. -/
theorem C9_totality_safety (s1 s2 : UText) :
    ((levMatrix s1 s2).length = s1.length + 1 ∧
        ∀ row ∈ levMatrix s1 s2, row.length = s2.length + 1) ∧
      (∀ i ∈ List.range' 1 s1.length, i - 1 < s1.length ∧ i < (levMatrix s1 s2).length) ∧
      (∀ j ∈ List.range' 1 s2.length, j - 1 < s2.length ∧
        ∀ row ∈ levMatrix s1 s2, j < row.length) ∧
      (s1.isEmpty = false → s2.isEmpty = false → 1 ≤ max s1.charCount s2.charCount) := by
  have hdims := dims_levMatrix s1 s2
  refine ⟨⟨hdims.1, hdims.2⟩, ?_, ?_, ?_⟩
  · intro i hi
    rw [List.mem_range'_1] at hi
    exact ⟨by omega, by rw [hdims.1]; omega⟩
  · intro j hj
    rw [List.mem_range'_1] at hj
    refine ⟨by omega, ?_⟩
    intro row hrow
    rw [hdims.2 row hrow]
    omega
  · intro hne1 _
    exact le_trans (UText.charCount_pos hne1) (le_max_left _ _)

/-- C9 witness: the safety facts instantiated at the texts "ab" and "c",
with the nonemptiness conditions of the denominator clause discharged. -/
theorem C9_totality_safety_witness :
    (((levMatrix (asciiText "ab") (asciiText "c")).length = (asciiText "ab").length + 1 ∧
        ∀ row ∈ levMatrix (asciiText "ab") (asciiText "c"),
          row.length = (asciiText "c").length + 1) ∧
      (∀ i ∈ List.range' 1 (asciiText "ab").length,
        i - 1 < (asciiText "ab").length ∧
          i < (levMatrix (asciiText "ab") (asciiText "c")).length) ∧
      (∀ j ∈ List.range' 1 (asciiText "c").length,
        j - 1 < (asciiText "c").length ∧
          ∀ row ∈ levMatrix (asciiText "ab") (asciiText "c"), j < row.length) ∧
      ((asciiText "ab").isEmpty = false → (asciiText "c").isEmpty = false →
        1 ≤ max (asciiText "ab").charCount (asciiText "c").charCount)) ∧
      1 ≤ max (asciiText "ab").charCount (asciiText "c").charCount :=
  ⟨C9_totality_safety (asciiText "ab") (asciiText "c"),
    (C9_totality_safety (asciiText "ab") (asciiText "c")).2.2.2 (by decide) (by decide)⟩

/-- C10: the result is deterministic and chunking-independent: any partition
of the enumerated pair list into consecutive chunks, filtered chunkwise and
concatenated in order (the semantics of the rayon pipeline), yields exactly
the sequential filter. -/
theorem C10_chunked_filter (contacts : List Contact) (threshold : ℤ)
    (chunks : List (List (Contact × Contact)))
    (h : chunks.flatten = contactPairs contacts) :
    (chunks.map fun ch => ch.filterMap (scoreFilter threshold)).flatten =
      calculate_similarity_scores contacts threshold := by
  unfold calculate_similarity_scores
  rw [← List.filterMap_flatten, h]

/-- C10 witness: a two-chunk split of the three-record pair list at
threshold 800. -/
theorem C10_chunked_filter_witness :
    (([[(johnContact, jonContact)], [(johnContact, janeContact), (jonContact, janeContact)]] :
          List (List (Contact × Contact))).flatten =
        contactPairs [johnContact, jonContact, janeContact]) ∧
      (([[(johnContact, jonContact)], [(johnContact, janeContact), (jonContact, janeContact)]] :
          List (List (Contact × Contact))).map
            (fun ch => ch.filterMap (scoreFilter 800))).flatten =
        calculate_similarity_scores [johnContact, jonContact, janeContact] 800 :=
  ⟨by decide, C10_chunked_filter [johnContact, jonContact, janeContact] 800 _ (by decide)⟩
